import Mathlib

/-!
Shallow embedding of `src/restaurant.ts`, the restaurant-simulation engine.

Modelling conventions:
* TypeScript objects are modelled by value structures; object identity is
  modelled by indices: a `Table` reference is the table's position in the
  restaurant's fixed `tables` list, and a `Person` reference is a numeric
  person id into an id-indexed store `persons : Nat -> PersonState`.
* TypeScript `number` is modelled as `ℚ` for times (current time, time step,
  dining durations) and as `ℤ` for table ids and capacities (every
  construction site in the source uses integer capacities).
* A thrown exception is modelled by returning the state as it is at the
  moment the exception propagates, together with `some` error; normal
  completion returns `none` for the error component.
* The unbounded `while` loop of `runSimulation` is modelled with explicit
  fuel; `RunOutcome.outOfFuel` marks a run that would have kept looping.
-/

/-- Error values corresponding to the two `throw new Error(...)` sites in
`Person.sitDown`. -/
inductive SimError where
  | alreadySitting : SimError
  | tableFull : SimError
deriving DecidableEq

/-- `class DiningTime`: an inclusive lower/upper bound pair for a dining
duration.  The source constructor stores the bounds without any validation. -/
structure DiningTime where
  lowerBound : ℚ
  upperBound : ℚ
deriving DecidableEq

/-- The `DiningTime` constructor: stores both bounds unchecked (no
`InvalidRangeError` exists in the source). -/
def DiningTime.create (lowerBound upperBound : ℚ) : DiningTime :=
  { lowerBound := lowerBound, upperBound := upperBound }

/-- `DiningTime.interpolate`: `lowerBound + u * (upperBound - lowerBound)`
for a uniform sample `u`. -/
def DiningTime.interpolate (d : DiningTime) (u : ℚ) : ℚ :=
  d.lowerBound + u * (d.upperBound - d.lowerBound)

/-- The engine-relevant state of a `Person`: the sampled `actualDiningTime`
and the `sitting_at_table` reference (a table index, or `none`).  The
identity fields (`id`, `name`, `age`) and the `diningTime` range do not
influence any engine operation and are left out of the store's payload;
a person's id is the key into the store. -/
structure PersonState where
  actualDiningTime : ℚ
  sittingAt : Option Nat
deriving DecidableEq

/-- The `Person` constructor: `actualDiningTime` is fixed at construction
via `diningTime.interpolate(randomizer)`; `sitting_at_table` starts unset. -/
def PersonState.create (d : DiningTime) (u : ℚ) : PersonState :=
  { actualDiningTime := d.interpolate u, sittingAt := none }

/-- `class Table`: id, capacity and the current patron list (person ids). -/
structure TableState where
  id : ℤ
  capacity : ℤ
  patrons : List Nat
deriving DecidableEq

/-- The `Table` constructor: stores id, capacity and the initial patron list
unchecked (no `InvalidCapacityError` exists in the source; the source's
default argument for `patrons` is `[]`). -/
def TableState.create (id capacity : ℤ) (patrons : List Nat) : TableState :=
  { id := id, capacity := capacity, patrons := patrons }

/-- `Table.addPatron`: pushes the person if there is room
(`patrons.length < capacity`) and reports `true`; otherwise reports `false`
without side effects. -/
def TableState.addPatron (t : TableState) (pid : Nat) : TableState × Bool :=
  if (t.patrons.length : ℤ) < t.capacity then
    ({ t with patrons := t.patrons ++ [pid] }, true)
  else
    (t, false)

/-- `class Party`: an ordered list of members (person ids).  The source
constructor performs no emptiness check (no `EmptyPartyError` exists). -/
structure Party where
  members : List Nat
deriving DecidableEq

/-- The `Party` constructor: stores the member list unchecked. -/
def Party.create (members : List Nat) : Party :=
  { members := members }

/-- `Party.getSize`: the member count. -/
def Party.size (p : Party) : Nat :=
  p.members.length

/-- The whole mutable state of a `Restaurant` together with the store of all
`Person` objects: the fixed table list, the FIFO waiting queue, the clock,
and the person store. -/
structure RState where
  tables : List TableState
  waitingQueue : List Party
  currentTime : ℚ
  persons : Nat → PersonState

/-- The `Restaurant` constructor: the given tables, an empty queue, time 0. -/
def RState.create (tables : List TableState) (persons : Nat → PersonState) : RState :=
  { tables := tables, waitingQueue := [], currentTime := 0, persons := persons }

/-- Placeholder table used to totalise list indexing; every table reference
produced by the engine is in range, so the placeholder is never the table an
operation actually works on (its capacity 0 also makes `addPatron` reject). -/
def defaultTable : TableState :=
  { id := 0, capacity := 0, patrons := [] }

/-- Reading the table object referenced by index `i` of the fixed list. -/
def nthTable (l : List TableState) (i : Nat) : TableState :=
  match l, i with
  | [], _ => defaultTable
  | t :: _, 0 => t
  | _ :: rest, i + 1 => nthTable rest i

/-- Point update of the person store (mutation of one `Person` object). -/
def updatePerson (ps : Nat → PersonState) (pid : Nat) (st : PersonState) :
    Nat → PersonState :=
  fun q => if q = pid then st else ps q

/-- `Person.leaveTable(table)`, acting on the person store: if the person's
`sitting_at_table` is (reference-)equal to the given table, clear it;
otherwise do nothing (the source's silent "they weren't at that table"
branch). -/
def leaveTableP (ps : Nat → PersonState) (pid tidx : Nat) : Nat → PersonState :=
  if (ps pid).sittingAt = some tidx then
    updatePerson ps pid { ps pid with sittingAt := none }
  else
    ps

/-- `Person.leaveTable` lifted to the whole state (it only mutates the one
person object). -/
def leaveTable (s : RState) (pid tidx : Nat) : RState :=
  { s with persons := leaveTableP s.persons pid tidx }

/-- The `patrons.forEach(patron => patron.leaveTable(this))` loop of
`Table.emptyTable`. -/
def leaveAll (ps : Nat → PersonState) (patrons : List Nat) (tidx : Nat) :
    Nat → PersonState :=
  patrons.foldl (fun acc pid => leaveTableP acc pid tidx) ps

/-- `Table.emptyTable`: every current patron is told to leave this table,
then the table's patron list is reset to `[]`. -/
def emptyTable (s : RState) (tidx : Nat) : RState :=
  { s with
      persons := leaveAll s.persons (nthTable s.tables tidx).patrons tidx,
      tables := s.tables.set tidx { nthTable s.tables tidx with patrons := [] } }

/-- `Person.sitDown(table)`: throws `alreadySitting` if the person is
already seated anywhere; otherwise asks the table to add them, throwing
`tableFull` when the table rejects, and records the seat on success. -/
def sitDown (s : RState) (pid tidx : Nat) : RState × Option SimError :=
  if (s.persons pid).sittingAt ≠ none then
    (s, some SimError.alreadySitting)
  else
    let t := nthTable s.tables tidx
    let r := t.addPatron pid
    if r.2 then
      ({ s with
          tables := s.tables.set tidx r.1,
          persons := updatePerson s.persons pid
            { s.persons pid with sittingAt := some tidx } }, none)
    else
      (s, some SimError.tableFull)

/-- Whether a table can receive a party of `n` people in
`Restaurant.findAvailableTable`: completely empty and capacity at least `n`. -/
def availFor (n : Nat) (t : TableState) : Prop :=
  t.patrons = [] ∧ (n : ℤ) ≤ t.capacity

instance (n : Nat) (t : TableState) : Decidable (availFor n t) := by
  unfold availFor
  infer_instance

/-- The `tables.find(...)` scan of `Restaurant.findAvailableTable`,
returning the index of the first matching table. -/
def findAvailIdx (n : Nat) : List TableState → Option Nat
  | [] => none
  | t :: rest =>
      if availFor n t then some 0 else (findAvailIdx n rest).map (· + 1)

/-- `Restaurant.findAvailableTable(partySize)`: first completely empty table
whose capacity is at least the party size, in table-list order. -/
def findAvailableTable (s : RState) (n : Nat) : Option Nat :=
  findAvailIdx n s.tables

/-- The `for (const person of party.getMembers()) person.sitDown(table)`
loop of `Restaurant.seatParty`; an exception aborts the loop. -/
def seatMembers (s : RState) (members : List Nat) (tidx : Nat) :
    RState × Option SimError :=
  match members with
  | [] => (s, none)
  | pid :: rest =>
      let r := sitDown s pid tidx
      match r.2 with
      | some e => (r.1, some e)
      | none => seatMembers r.1 rest tidx

/-- `Restaurant.seatParty(party)`: look for an available table; if none,
report `false`; otherwise seat every member there and report `true`.  The
`Bool` component is the source's return value (dead when an exception is
propagated in the error component). -/
def seatParty (s : RState) (party : Party) : RState × Option SimError × Bool :=
  match findAvailableTable s party.size with
  | none => (s, none, false)
  | some tidx =>
      let r := seatMembers s party.members tidx
      match r.2 with
      | some e => (r.1, some e, false)
      | none => (r.1, none, true)

/-- `Restaurant.addToWaitingQueue(party)`: append at the tail. -/
def addToWaitingQueue (s : RState) (party : Party) : RState :=
  { s with waitingQueue := s.waitingQueue ++ [party] }

/-- `Math.max(...patrons.map(p => p.getActualDiningTime()))` over a table's
patron list.  The source only evaluates it under a `patrons.length > 0`
guard, so the `[]` case is arbitrary. -/
def maxDiningTime (ps : Nat → PersonState) : List Nat → ℚ
  | [] => 0
  | pid :: rest =>
      rest.foldl (fun acc q => max acc (ps q).actualDiningTime)
        (ps pid).actualDiningTime

/-- The eviction guard of `Restaurant.simulateStep` for the table at index
`i`: the table has patrons (`patrons.length > 0`) and the longest dining
time among them has elapsed (`currentTime >= maxDiningTime`). -/
def evictCond (s : RState) (i : Nat) : Prop :=
  (nthTable s.tables i).patrons ≠ [] ∧
    maxDiningTime s.persons (nthTable s.tables i).patrons ≤ s.currentTime

instance (s : RState) (i : Nat) : Decidable (evictCond s i) := by
  unfold evictCond
  infer_instance

/-- One iteration of the eviction loop of `Restaurant.simulateStep`: if the
table at index `i` has patrons and the longest dining time among them has
elapsed, empty the table.  (The source's nested `if`s are combined into one
conjunction.) -/
def evictCheck (s : RState) (i : Nat) : RState :=
  if evictCond s i then emptyTable s i else s

/-- The `for (const table of this.tables)` eviction loop: each table, in
list order. -/
def evictPhase (s : RState) : RState :=
  (List.range s.tables.length).foldl evictCheck s

/-- The `while (this.waitingQueue.length > 0)` admission loop of
`Restaurant.simulateStep`, recursing on the queue: if a table is available
for the head party, dequeue it and seat it (the source's `seatParty` call
re-runs the table search on the same state), else stop.  The list argument
is always the current `waitingQueue` of the state (`seatParty` never touches
the queue). -/
def admitAux : List Party → RState → RState × Option SimError
  | [], s => (s, none)
  | p :: rest, s =>
      if (findAvailableTable s p.size).isSome then
        let r := seatParty { s with waitingQueue := rest } p
        match r.2.1 with
        | some e => (r.1, some e)
        | none => admitAux rest r.1
      else
        (s, none)

/-- The admission phase of a step, started on the current waiting queue. -/
def admitPhase (s : RState) : RState × Option SimError :=
  admitAux s.waitingQueue s

/-- `Restaurant.simulateStep(timeStep)`: advance the clock by `timeStep`
(unconditionally — there is no validation), then run the eviction loop, then
the admission loop. -/
def simulateStep (s : RState) (timeStep : ℚ) : RState × Option SimError :=
  admitPhase (evictPhase { s with currentTime := s.currentTime + timeStep })

/-- Outcome of a fuelled run of `Restaurant.runSimulation`. -/
inductive RunOutcome where
  | finished : RunOutcome
  | errored : SimError → RunOutcome
  | outOfFuel : RunOutcome
deriving DecidableEq

/-- `Restaurant.runSimulation(duration, timeStep)`: step while
`currentTime < duration`.  Returns the final state, the number of executed
steps, and whether the loop exited normally, propagated an exception, or ran
out of fuel (meaning the real loop would have kept going). -/
def runSimAux (duration timeStep : ℚ) : Nat → RState → RState × Nat × RunOutcome
  | 0, s =>
      if s.currentTime < duration then (s, 0, RunOutcome.outOfFuel)
      else (s, 0, RunOutcome.finished)
  | fuel + 1, s =>
      if s.currentTime < duration then
        let r := simulateStep s timeStep
        match r.2 with
        | some e => (r.1, 1, RunOutcome.errored e)
        | none =>
            let rec' := runSimAux duration timeStep fuel r.1
            (rec'.1, rec'.2.1 + 1, rec'.2.2)
      else
        (s, 0, RunOutcome.finished)

/-- `Restaurant.getWaitingPatronCount`. -/
def getWaitingPatronCount (s : RState) : Nat :=
  s.waitingQueue.foldl (fun sum p => sum + p.size) 0

/-- `Restaurant.getOccupiedTableCount`. -/
def getOccupiedTableCount (s : RState) : Nat :=
  (s.tables.filter (fun t => t.patrons.length > 0)).length

/-- `Restaurant.getTotalSeatedPatrons`. -/
def getTotalSeatedPatrons (s : RState) : Nat :=
  s.tables.foldl (fun sum t => sum + t.patrons.length) 0

/-- The bidirectional seating invariant of the spec: a person's seated-at
reference points to a table exactly when that table's occupant list contains
them.  Out-of-range indices read the placeholder table with an empty patron
list, so the invariant also rules out dangling seat references. -/
def SeatInv (s : RState) : Prop :=
  ∀ pid tidx, (s.persons pid).sittingAt = some tidx ↔
    pid ∈ (nthTable s.tables tidx).patrons

/-- The capacity invariant of the spec: no table's occupant list ever
exceeds its capacity. -/
def CapInv (s : RState) : Prop :=
  ∀ i, ((nthTable s.tables i).patrons.length : ℤ) ≤ (nthTable s.tables i).capacity


/-! ## Concrete states used in the claim theorems and witnesses -/

/-- A restaurant with one free 2-top, one waiting party of two, everyone
unseated. -/
def sW1 : RState :=
  { tables := [TableState.create 1 2 []],
    waitingQueue := [Party.create [4, 5]],
    currentTime := 0,
    persons := fun _ => { actualDiningTime := 30, sittingAt := none } }

/-- The spec scenario for head-of-line blocking: one free 2-top, a party of
four queued ahead of a party of two. -/
def sW2 : RState :=
  { tables := [TableState.create 1 2 []],
    waitingQueue := [Party.create [1, 2, 3, 4], Party.create [5, 6]],
    currentTime := 0,
    persons := fun _ => { actualDiningTime := 30, sittingAt := none } }

/-- Person store of the spec's group-departure scenario: persons 1 and 2
seated at table 0 with dining times 30 and 50. -/
def psW3 : Nat → PersonState := fun q =>
  if q = 1 then { actualDiningTime := 30, sittingAt := some 0 }
  else if q = 2 then { actualDiningTime := 50, sittingAt := some 0 }
  else { actualDiningTime := 0, sittingAt := none }

/-- The spec's group-departure scenario: one table seating persons 1, 2. -/
def sW3 : RState :=
  { tables := [TableState.create 1 2 [1, 2]],
    waitingQueue := [],
    currentTime := 0,
    persons := psW3 }

/-- First-fit scenario: a partially occupied 4-top first, then a free 2-top,
then a free 4-top. -/
def sW4 : RState :=
  { tables := [TableState.create 1 4 [9], TableState.create 2 2 [],
      TableState.create 3 4 []],
    waitingQueue := [],
    currentTime := 0,
    persons := fun q =>
      if q = 9 then { actualDiningTime := 30, sittingAt := some 0 }
      else { actualDiningTime := 30, sittingAt := none } }

/-- A restaurant with one seated person and one free table. -/
def sW9 : RState :=
  { tables := [TableState.create 1 2 [7], TableState.create 2 4 []],
    waitingQueue := [],
    currentTime := 0,
    persons := fun q =>
      if q = 7 then { actualDiningTime := 50, sittingAt := some 0 }
      else { actualDiningTime := 30, sittingAt := none } }

/-- A freshly constructed restaurant with one 2-top. -/
def sW10 : RState :=
  RState.create [TableState.create 1 2 []]
    (fun _ => { actualDiningTime := 30, sittingAt := none })

/-- Person 7 is seated at table index 0; table index 1 is a different
table. -/
def sC5 : RState :=
  { tables := [TableState.create 1 2 [7], TableState.create 2 2 []],
    waitingQueue := [],
    currentTime := 0,
    persons := fun q =>
      if q = 7 then { actualDiningTime := 50, sittingAt := some 0 }
      else { actualDiningTime := 30, sittingAt := none } }

/-- A freshly constructed restaurant (current time 0), for the
zero-duration run. -/
def sC6 : RState :=
  RState.create [TableState.create 1 2 []]
    (fun _ => { actualDiningTime := 30, sittingAt := none })

/-- A freshly constructed restaurant, for the unchecked time step. -/
def sC7 : RState :=
  RState.create [TableState.create 1 2 []]
    (fun _ => { actualDiningTime := 30, sittingAt := none })

/-! ## Basic lemmas about the state primitives -/

lemma nthTable_nil (i : Nat) : nthTable [] i = defaultTable := by
  cases i <;> rfl

lemma nthTable_cons_zero (t : TableState) (rest : List TableState) :
    nthTable (t :: rest) 0 = t := rfl

lemma nthTable_cons_succ (t : TableState) (rest : List TableState) (i : Nat) :
    nthTable (t :: rest) (i + 1) = nthTable rest i := rfl

lemma nthTable_of_len_le (l : List TableState) (i : Nat) (h : l.length ≤ i) :
    nthTable l i = defaultTable := by
  induction l generalizing i with
  | nil => exact nthTable_nil i
  | cons t rest ih =>
      cases i with
      | zero => simp at h
      | succ j =>
          rw [nthTable_cons_succ]
          exact ih j (by simpa using h)

lemma nthTable_mem (l : List TableState) (i : Nat) (h : i < l.length) :
    nthTable l i ∈ l := by
  induction l generalizing i with
  | nil => simp at h
  | cons t rest ih =>
      cases i with
      | zero => simp [nthTable_cons_zero]
      | succ j =>
          rw [nthTable_cons_succ]
          exact List.mem_cons_of_mem _ (ih j (by simpa using h))

lemma nthTable_set_self (l : List TableState) (i : Nat) (a : TableState)
    (h : i < l.length) : nthTable (l.set i a) i = a := by
  induction l generalizing i with
  | nil => simp at h
  | cons t rest ih =>
      cases i with
      | zero => rfl
      | succ j =>
          simp only [List.set]
          rw [nthTable_cons_succ]
          exact ih j (by simpa using h)

lemma nthTable_set_ne (l : List TableState) (i j : Nat) (a : TableState)
    (h : i ≠ j) : nthTable (l.set i a) j = nthTable l j := by
  induction l generalizing i j with
  | nil => simp [nthTable_nil]
  | cons t rest ih =>
      cases i with
      | zero =>
          cases j with
          | zero => exact absurd rfl h
          | succ k => simp [List.set, nthTable_cons_succ]
      | succ i' =>
          cases j with
          | zero => rfl
          | succ k =>
              simp only [List.set]
              rw [nthTable_cons_succ, nthTable_cons_succ]
              exact ih i' k (fun hik => h (by rw [hik]))

lemma updatePerson_self (ps : Nat → PersonState) (pid : Nat) (st : PersonState) :
    updatePerson ps pid st pid = st := by
  simp [updatePerson]

lemma updatePerson_ne (ps : Nat → PersonState) (pid q : Nat) (st : PersonState)
    (h : q ≠ pid) : updatePerson ps pid st q = ps q := by
  simp [updatePerson, h]

lemma leaveTableP_apply (ps : Nat → PersonState) (pid tidx q : Nat) :
    leaveTableP ps pid tidx q =
      if q = pid ∧ (ps q).sittingAt = some tidx then
        { ps q with sittingAt := none }
      else ps q := by
  unfold leaveTableP
  by_cases hq : q = pid
  · subst hq
    by_cases hsit : (ps q).sittingAt = some tidx
    · simp [hsit, updatePerson_self]
    · simp [hsit]
  · by_cases hsit : (ps pid).sittingAt = some tidx
    · simp [hsit, updatePerson_ne ps pid q _ hq, hq]
    · simp [hsit, hq]

lemma leaveAll_apply (patrons : List Nat) (ps : Nat → PersonState) (tidx q : Nat) :
    leaveAll ps patrons tidx q =
      if q ∈ patrons ∧ (ps q).sittingAt = some tidx then
        { ps q with sittingAt := none }
      else ps q := by
  induction patrons generalizing ps with
  | nil => simp [leaveAll]
  | cons p rest ih =>
      have step : leaveAll ps (p :: rest) tidx = leaveAll (leaveTableP ps p tidx) rest tidx := rfl
      rw [step, ih]
      by_cases hq : q = p
      · subst hq
        by_cases hsit : (ps q).sittingAt = some tidx
        · rw [leaveTableP_apply]
          simp [hsit]
        · rw [leaveTableP_apply]
          simp [hsit]
      · rw [leaveTableP_apply]
        simp only [hq, false_and, if_false]
        by_cases hmem : q ∈ rest
        · simp [hmem, hq]
        · simp [hmem, hq]

lemma leaveAll_actualDiningTime (patrons : List Nat) (ps : Nat → PersonState)
    (tidx q : Nat) :
    (leaveAll ps patrons tidx q).actualDiningTime = (ps q).actualDiningTime := by
  rw [leaveAll_apply]
  split <;> rfl

/-! ## Lemmas about the maximum dining time -/

lemma foldl_max_init_le (f : Nat → ℚ) (l : List Nat) (a : ℚ) :
    a ≤ l.foldl (fun acc q => max acc (f q)) a := by
  induction l generalizing a with
  | nil => exact le_refl a
  | cons x xs ih =>
      exact le_trans (le_max_left a (f x)) (ih (max a (f x)))

lemma foldl_max_mem_le (f : Nat → ℚ) (l : List Nat) (a : ℚ) :
    ∀ x ∈ l, f x ≤ l.foldl (fun acc q => max acc (f q)) a := by
  induction l generalizing a with
  | nil => intro x hx; simp at hx
  | cons y ys ih =>
      intro x hx
      rcases List.mem_cons.mp hx with rfl | h
      · exact le_trans (le_max_right a (f x)) (foldl_max_init_le f ys (max a (f x)))
      · exact ih (max a (f y)) x h

lemma maxDiningTime_is_ub (ps : Nat → PersonState) (l : List Nat) :
    ∀ p ∈ l, (ps p).actualDiningTime ≤ maxDiningTime ps l := by
  cases l with
  | nil => intro p hp; simp at hp
  | cons h rest =>
      intro p hp
      rcases List.mem_cons.mp hp with rfl | hmem
      · exact foldl_max_init_le _ rest _
      · exact foldl_max_mem_le _ rest _ p hmem

lemma maxDiningTime_cons (ps : Nat → PersonState) (p : Nat) (rest : List Nat) :
    maxDiningTime ps (p :: rest) =
      rest.foldl (fun acc q => max acc (ps q).actualDiningTime)
        (ps p).actualDiningTime := rfl

lemma maxDiningTime_congr (ps ps' : Nat → PersonState) (l : List Nat)
    (h : ∀ q, (ps q).actualDiningTime = (ps' q).actualDiningTime) :
    maxDiningTime ps l = maxDiningTime ps' l := by
  cases l with
  | nil => rfl
  | cons p rest =>
      rw [maxDiningTime_cons, maxDiningTime_cons, h p]
      congr 1
      funext acc q
      rw [h q]

/-! ## Case equations for `sitDown` -/

lemma sitDown_of_seated (s : RState) (pid tidx : Nat)
    (h : (s.persons pid).sittingAt ≠ none) :
    sitDown s pid tidx = (s, some SimError.alreadySitting) := by
  unfold sitDown
  simp [h]

lemma sitDown_of_full (s : RState) (pid tidx : Nat)
    (h1 : (s.persons pid).sittingAt = none)
    (h2 : ¬ ((nthTable s.tables tidx).patrons.length : ℤ) <
        (nthTable s.tables tidx).capacity) :
    sitDown s pid tidx = (s, some SimError.tableFull) := by
  unfold sitDown
  simp [h1, TableState.addPatron, h2]

lemma sitDown_of_ok (s : RState) (pid tidx : Nat)
    (h1 : (s.persons pid).sittingAt = none)
    (h2 : ((nthTable s.tables tidx).patrons.length : ℤ) <
        (nthTable s.tables tidx).capacity) :
    sitDown s pid tidx =
      ({ s with
          tables := s.tables.set tidx
            { nthTable s.tables tidx with
                patrons := (nthTable s.tables tidx).patrons ++ [pid] },
          persons := updatePerson s.persons pid
            { s.persons pid with sittingAt := some tidx } }, none) := by
  unfold sitDown
  simp [h1, TableState.addPatron, h2]

/-- A successful `addPatron` needs positive remaining room, which the
placeholder table (capacity 0) never has, so the target index is in range. -/
lemma sitDown_ok_lt_length (s : RState) (tidx : Nat)
    (h2 : ((nthTable s.tables tidx).patrons.length : ℤ) <
        (nthTable s.tables tidx).capacity) :
    tidx < s.tables.length := by
  by_contra hge
  push_neg at hge
  rw [nthTable_of_len_le _ _ hge] at h2
  simp [defaultTable] at h2

/-! ## Preservation of the bidirectional seating invariant -/

lemma sitDown_seatInv (s : RState) (pid tidx : Nat) (h : SeatInv s) :
    SeatInv (sitDown s pid tidx).1 := by
  by_cases h1 : (s.persons pid).sittingAt = none
  · by_cases h2 : ((nthTable s.tables tidx).patrons.length : ℤ) <
        (nthTable s.tables tidx).capacity
    · rw [sitDown_of_ok s pid tidx h1 h2]
      have hlen := sitDown_ok_lt_length s tidx h2
      intro q j
      dsimp only
      by_cases hq : q = pid
      · subst hq
        rw [updatePerson_self]
        by_cases hj : j = tidx
        · subst hj
          rw [nthTable_set_self _ _ _ hlen]
          simp
        · rw [nthTable_set_ne _ _ _ _ (fun hh => hj hh.symm)]
          have hnot : q ∉ (nthTable s.tables j).patrons := by
            intro hmem
            have := (h q j).mpr hmem
            rw [h1] at this
            exact Option.noConfusion this
          simp only [hnot, iff_false]
          intro hh
          exact hj (Option.some.inj hh).symm
      · rw [updatePerson_ne _ _ _ _ hq]
        by_cases hj : j = tidx
        · subst hj
          rw [nthTable_set_self _ _ _ hlen]
          simp only [List.mem_append, List.mem_singleton]
          rw [h q j]
          simp [hq]
        · rw [nthTable_set_ne _ _ _ _ (fun hh => hj hh.symm)]
          exact h q j
    · rw [sitDown_of_full s pid tidx h1 h2]
      exact h
  · rw [sitDown_of_seated s pid tidx h1]
    exact h

lemma seatMembers_seatInv (members : List Nat) (s : RState) (tidx : Nat)
    (h : SeatInv s) : SeatInv (seatMembers s members tidx).1 := by
  induction members generalizing s with
  | nil => exact h
  | cons pid rest ih =>
      unfold seatMembers
      cases hr : (sitDown s pid tidx).2 with
      | some e => simpa [hr] using sitDown_seatInv s pid tidx h
      | none =>
          simp only [hr]
          exact ih _ (sitDown_seatInv s pid tidx h)

lemma seatParty_seatInv (s : RState) (party : Party) (h : SeatInv s) :
    SeatInv (seatParty s party).1 := by
  unfold seatParty
  cases hf : findAvailableTable s party.size with
  | none => exact h
  | some tidx =>
      cases hr : (seatMembers s party.members tidx).2 with
      | some e => simpa [hr] using seatMembers_seatInv party.members s tidx h
      | none => simpa [hr] using seatMembers_seatInv party.members s tidx h

/-! ## Frame conditions: what each operation leaves untouched -/

/-- Fields never modified by the seating/eviction operations (everything but
the queue): the clock, the number of tables, and every person's sampled
dining duration. -/
def FrameNoQ (s s' : RState) : Prop :=
  s'.currentTime = s.currentTime ∧
  s'.tables.length = s.tables.length ∧
  ∀ q, (s'.persons q).actualDiningTime = (s.persons q).actualDiningTime

lemma frameNoQ_refl (s : RState) : FrameNoQ s s :=
  ⟨rfl, rfl, fun _ => rfl⟩

lemma frameNoQ_trans {s1 s2 s3 : RState} (h12 : FrameNoQ s1 s2)
    (h23 : FrameNoQ s2 s3) : FrameNoQ s1 s3 :=
  ⟨h23.1.trans h12.1, h23.2.1.trans h12.2.1,
    fun q => (h23.2.2 q).trans (h12.2.2 q)⟩

lemma sitDown_frame (s : RState) (pid tidx : Nat) :
    FrameNoQ s (sitDown s pid tidx).1 ∧
      (sitDown s pid tidx).1.waitingQueue = s.waitingQueue := by
  by_cases h1 : (s.persons pid).sittingAt = none
  · by_cases h2 : ((nthTable s.tables tidx).patrons.length : ℤ) <
        (nthTable s.tables tidx).capacity
    · rw [sitDown_of_ok s pid tidx h1 h2]
      refine ⟨⟨rfl, ?_, ?_⟩, rfl⟩
      · dsimp only
        exact List.length_set _ _ _
      · intro q
        dsimp only
        by_cases hq : q = pid
        · subst hq
          rw [updatePerson_self]
        · rw [updatePerson_ne _ _ _ _ hq]
    · rw [sitDown_of_full s pid tidx h1 h2]
      exact ⟨frameNoQ_refl s, rfl⟩
  · rw [sitDown_of_seated s pid tidx h1]
    exact ⟨frameNoQ_refl s, rfl⟩

lemma seatMembers_frame (members : List Nat) (s : RState) (tidx : Nat) :
    FrameNoQ s (seatMembers s members tidx).1 ∧
      (seatMembers s members tidx).1.waitingQueue = s.waitingQueue := by
  induction members generalizing s with
  | nil => exact ⟨frameNoQ_refl s, rfl⟩
  | cons pid rest ih =>
      unfold seatMembers
      cases hr : (sitDown s pid tidx).2 with
      | some e =>
          simp only [hr]
          exact sitDown_frame s pid tidx
      | none =>
          simp only [hr]
          refine ⟨frameNoQ_trans (sitDown_frame s pid tidx).1
            (ih (sitDown s pid tidx).1).1, ?_⟩
          rw [(ih (sitDown s pid tidx).1).2, (sitDown_frame s pid tidx).2]

lemma seatParty_frame (s : RState) (party : Party) :
    FrameNoQ s (seatParty s party).1 ∧
      (seatParty s party).1.waitingQueue = s.waitingQueue := by
  unfold seatParty
  cases hf : findAvailableTable s party.size with
  | none => exact ⟨frameNoQ_refl s, rfl⟩
  | some tidx =>
      cases hr : (seatMembers s party.members tidx).2 with
      | some e => simpa [hr] using seatMembers_frame party.members s tidx
      | none => simpa [hr] using seatMembers_frame party.members s tidx

lemma set_of_len_le {α : Type _} (l : List α) (i : Nat) (a : α)
    (h : l.length ≤ i) : l.set i a = l := by
  induction l generalizing i with
  | nil => rfl
  | cons x xs ih =>
      cases i with
      | zero => simp at h
      | succ j => simp only [List.set]; rw [ih j (by simpa using h)]

lemma emptyTable_frame (s : RState) (tidx : Nat) :
    FrameNoQ s (emptyTable s tidx) ∧
      (emptyTable s tidx).waitingQueue = s.waitingQueue := by
  refine ⟨⟨rfl, ?_, ?_⟩, rfl⟩
  · exact List.length_set _ _ _
  · intro q
    exact leaveAll_actualDiningTime _ _ _ _

lemma evictCheck_frame (s : RState) (i : Nat) :
    FrameNoQ s (evictCheck s i) ∧
      (evictCheck s i).waitingQueue = s.waitingQueue := by
  unfold evictCheck
  split
  · exact emptyTable_frame s i
  · exact ⟨frameNoQ_refl s, rfl⟩

lemma foldl_pres {β : Type _} (P : RState → Prop) (f : RState → β → RState)
    (hf : ∀ s b, P s → P (f s b)) :
    ∀ (l : List β) (s : RState), P s → P (l.foldl f s) := by
  intro l
  induction l with
  | nil => intro s hs; exact hs
  | cons b rest ih => intro s hs; exact ih (f s b) (hf s b hs)

lemma evictPhase_frame (s : RState) :
    FrameNoQ s (evictPhase s) ∧ (evictPhase s).waitingQueue = s.waitingQueue := by
  unfold evictPhase
  generalize List.range s.tables.length = l
  induction l generalizing s with
  | nil => exact ⟨frameNoQ_refl s, rfl⟩
  | cons i rest ih =>
      simp only [List.foldl_cons]
      refine ⟨frameNoQ_trans (evictCheck_frame s i).1 (ih (evictCheck s i)).1, ?_⟩
      rw [(ih (evictCheck s i)).2, (evictCheck_frame s i).2]

lemma admitAux_frameNoQ (l : List Party) (s : RState) :
    FrameNoQ s (admitAux l s).1 := by
  induction l generalizing s with
  | nil => exact frameNoQ_refl s
  | cons p rest ih =>
      unfold admitAux
      by_cases hf : (findAvailableTable s p.size).isSome
      · simp only [hf, if_true]
        have hframe := (seatParty_frame { s with waitingQueue := rest } p).1
        cases hr : (seatParty { s with waitingQueue := rest } p).2.1 with
        | some e =>
            simp only [hr]
            exact hframe
        | none =>
            simp only [hr]
            exact frameNoQ_trans hframe (ih _)
      · simp only [hf, if_false]
        exact frameNoQ_refl s

lemma simulateStep_frame (s : RState) (timeStep : ℚ) :
    (simulateStep s timeStep).1.currentTime = s.currentTime + timeStep ∧
    (simulateStep s timeStep).1.tables.length = s.tables.length ∧
    ∀ q, ((simulateStep s timeStep).1.persons q).actualDiningTime =
      (s.persons q).actualDiningTime := by
  unfold simulateStep admitPhase
  have h1 := (evictPhase_frame { s with currentTime := s.currentTime + timeStep }).1
  have h2 := admitAux_frameNoQ
    (evictPhase { s with currentTime := s.currentTime + timeStep }).waitingQueue
    (evictPhase { s with currentTime := s.currentTime + timeStep })
  have h12 := frameNoQ_trans h1 h2
  exact ⟨h12.1, h12.2.1, h12.2.2⟩

lemma emptyTable_seatInv (s : RState) (tidx : Nat) (h : SeatInv s) :
    SeatInv (emptyTable s tidx) := by
  intro q j
  unfold emptyTable
  dsimp only
  rw [leaveAll_apply]
  by_cases hcond : q ∈ (nthTable s.tables tidx).patrons ∧
      (s.persons q).sittingAt = some tidx
  · have hlen : tidx < s.tables.length := by
      by_contra hge
      push_neg at hge
      rw [nthTable_of_len_le _ _ hge] at hcond
      simp [defaultTable] at hcond
    simp only [hcond, and_self, if_true]
    constructor
    · intro hh
      exact Option.noConfusion hh
    · intro hmem
      by_cases hj : j = tidx
      · subst hj
        rw [nthTable_set_self _ _ _ hlen] at hmem
        simp at hmem
      · rw [nthTable_set_ne _ _ _ _ (fun hh => hj hh.symm)] at hmem
        have := (h q j).mpr hmem
        rw [hcond.2] at this
        exact absurd (Option.some.inj this).symm hj
  · simp only [hcond, if_false]
    by_cases hj : j = tidx
    · rw [hj]
      by_cases hlen : tidx < s.tables.length
      · rw [nthTable_set_self _ _ _ hlen]
        simp only [List.not_mem_nil, iff_false]
        intro hh
        exact hcond ⟨(h q tidx).mp hh, hh⟩
      · rw [set_of_len_le _ _ _ (le_of_not_lt hlen)]
        exact h q tidx
    · rw [nthTable_set_ne _ _ _ _ (fun hh => hj hh.symm)]
      exact h q j

lemma evictCheck_seatInv (s : RState) (i : Nat) (h : SeatInv s) :
    SeatInv (evictCheck s i) := by
  unfold evictCheck
  split
  · exact emptyTable_seatInv s i h
  · exact h

lemma evictPhase_seatInv (s : RState) (h : SeatInv s) :
    SeatInv (evictPhase s) :=
  foldl_pres SeatInv evictCheck evictCheck_seatInv _ s h

lemma admitAux_seatInv (l : List Party) (s : RState) (h : SeatInv s) :
    SeatInv (admitAux l s).1 := by
  induction l generalizing s with
  | nil => exact h
  | cons p rest ih =>
      unfold admitAux
      by_cases hf : (findAvailableTable s p.size).isSome
      · simp only [hf, if_true]
        have h1 : SeatInv { s with waitingQueue := rest } := h
        cases hr : (seatParty { s with waitingQueue := rest } p).2.1 with
        | some e =>
            simp only [hr]
            exact seatParty_seatInv _ _ h1
        | none =>
            simp only [hr]
            exact ih _ (seatParty_seatInv _ _ h1)
      · simp only [hf, if_false]
        exact h

lemma simulateStep_seatInv (s : RState) (timeStep : ℚ) (h : SeatInv s) :
    SeatInv (simulateStep s timeStep).1 := by
  unfold simulateStep admitPhase
  exact admitAux_seatInv _ _
    (evictPhase_seatInv { s with currentTime := s.currentTime + timeStep } h)

lemma runSimAux_seatInv (duration timeStep : ℚ) (fuel : Nat) (s : RState)
    (h : SeatInv s) : SeatInv (runSimAux duration timeStep fuel s).1 := by
  induction fuel generalizing s with
  | zero =>
      unfold runSimAux
      split
      · exact h
      · exact h
  | succ n ih =>
      unfold runSimAux
      split
      · cases hr : (simulateStep s timeStep).2 with
        | some e =>
            simp only [hr]
            exact simulateStep_seatInv s timeStep h
        | none =>
            simp only [hr]
            exact ih _ (simulateStep_seatInv s timeStep h)
      · exact h

lemma addToWaitingQueue_seatInv (s : RState) (party : Party) (h : SeatInv s) :
    SeatInv (addToWaitingQueue s party) := h

/-! ## Preservation of the capacity bound -/

lemma addPatron_capacity (t : TableState) (pid : Nat)
    (h : (t.patrons.length : ℤ) ≤ t.capacity) :
    (((t.addPatron pid).1.patrons.length : ℤ) ≤ (t.addPatron pid).1.capacity) := by
  unfold TableState.addPatron
  split
  · rename_i hlt
    simp only [List.length_append, List.length_cons, List.length_nil]
    push_cast
    omega
  · exact h

lemma sitDown_capInv (s : RState) (pid tidx : Nat) (h : CapInv s) :
    CapInv (sitDown s pid tidx).1 := by
  by_cases h1 : (s.persons pid).sittingAt = none
  · by_cases h2 : ((nthTable s.tables tidx).patrons.length : ℤ) <
        (nthTable s.tables tidx).capacity
    · rw [sitDown_of_ok s pid tidx h1 h2]
      have hlen := sitDown_ok_lt_length s tidx h2
      intro i
      dsimp only
      by_cases hi : i = tidx
      · rw [hi, nthTable_set_self _ _ _ hlen]
        simp only [List.length_append, List.length_cons, List.length_nil]
        push_cast
        omega
      · rw [nthTable_set_ne _ _ _ _ (fun hh => hi hh.symm)]
        exact h i
    · rw [sitDown_of_full s pid tidx h1 h2]
      exact h
  · rw [sitDown_of_seated s pid tidx h1]
    exact h

lemma emptyTable_capInv (s : RState) (tidx : Nat) (h : CapInv s) :
    CapInv (emptyTable s tidx) := by
  intro i
  unfold emptyTable
  dsimp only
  by_cases hi : i = tidx
  · rw [hi]
    by_cases hlen : tidx < s.tables.length
    · rw [nthTable_set_self _ _ _ hlen]
      have h0 : (0 : ℤ) ≤ ((nthTable s.tables tidx).patrons.length : ℤ) := by
        positivity
      simpa using le_trans h0 (h tidx)
    · rw [set_of_len_le _ _ _ (le_of_not_lt hlen)]
      exact h tidx
  · rw [nthTable_set_ne _ _ _ _ (fun hh => hi hh.symm)]
    exact h i

lemma seatMembers_capInv (members : List Nat) (s : RState) (tidx : Nat)
    (h : CapInv s) : CapInv (seatMembers s members tidx).1 := by
  induction members generalizing s with
  | nil => exact h
  | cons pid rest ih =>
      unfold seatMembers
      cases hr : (sitDown s pid tidx).2 with
      | some e => simpa [hr] using sitDown_capInv s pid tidx h
      | none =>
          simp only [hr]
          exact ih _ (sitDown_capInv s pid tidx h)

lemma seatParty_capInv (s : RState) (party : Party) (h : CapInv s) :
    CapInv (seatParty s party).1 := by
  unfold seatParty
  cases hf : findAvailableTable s party.size with
  | none => exact h
  | some tidx =>
      cases hr : (seatMembers s party.members tidx).2 with
      | some e => simpa [hr] using seatMembers_capInv party.members s tidx h
      | none => simpa [hr] using seatMembers_capInv party.members s tidx h

lemma evictCheck_capInv (s : RState) (i : Nat) (h : CapInv s) :
    CapInv (evictCheck s i) := by
  unfold evictCheck
  split
  · exact emptyTable_capInv s i h
  · exact h

lemma evictPhase_capInv (s : RState) (h : CapInv s) : CapInv (evictPhase s) :=
  foldl_pres CapInv evictCheck evictCheck_capInv _ s h

lemma admitAux_capInv (l : List Party) (s : RState) (h : CapInv s) :
    CapInv (admitAux l s).1 := by
  induction l generalizing s with
  | nil => exact h
  | cons p rest ih =>
      unfold admitAux
      by_cases hf : (findAvailableTable s p.size).isSome
      · simp only [hf, if_true]
        have h1 : CapInv { s with waitingQueue := rest } := h
        cases hr : (seatParty { s with waitingQueue := rest } p).2.1 with
        | some e =>
            simp only [hr]
            exact seatParty_capInv _ _ h1
        | none =>
            simp only [hr]
            exact ih _ (seatParty_capInv _ _ h1)
      · simp only [hf, if_false]
        exact h

lemma simulateStep_capInv (s : RState) (timeStep : ℚ) (h : CapInv s) :
    CapInv (simulateStep s timeStep).1 := by
  unfold simulateStep admitPhase
  exact admitAux_capInv _ _
    (evictPhase_capInv { s with currentTime := s.currentTime + timeStep } h)

lemma runSimAux_capInv (duration timeStep : ℚ) (fuel : Nat) (s : RState)
    (h : CapInv s) : CapInv (runSimAux duration timeStep fuel s).1 := by
  induction fuel generalizing s with
  | zero =>
      unfold runSimAux
      split
      · exact h
      · exact h
  | succ n ih =>
      unfold runSimAux
      split
      · cases hr : (simulateStep s timeStep).2 with
        | some e =>
            simp only [hr]
            exact simulateStep_capInv s timeStep h
        | none =>
            simp only [hr]
            exact ih _ (simulateStep_capInv s timeStep h)
      · exact h

lemma create_capInv (tables : List TableState) (persons : Nat → PersonState)
    (h : ∀ t ∈ tables, t.patrons = [] ∧ 0 ≤ t.capacity) :
    CapInv (RState.create tables persons) := by
  intro i
  unfold RState.create
  dsimp only
  by_cases hlen : i < tables.length
  · have hmem := nthTable_mem tables i hlen
    have := h _ hmem
    rw [this.1]
    simpa using this.2
  · rw [nthTable_of_len_le _ _ (le_of_not_lt hlen)]
    simp [defaultTable]

/-! ## Characterisation of the first-fit table search -/

lemma findAvailIdx_some_spec (n : Nat) :
    ∀ (l : List TableState) (i : Nat), findAvailIdx n l = some i →
      i < l.length ∧ availFor n (nthTable l i) ∧
        ∀ j < i, ¬ availFor n (nthTable l j) := by
  intro l
  induction l with
  | nil => intro i h; simp [findAvailIdx] at h
  | cons t rest ih =>
      intro i h
      unfold findAvailIdx at h
      by_cases ht : availFor n t
      · simp only [ht, if_true, Option.some.injEq] at h
        subst h
        refine ⟨by simp, by simpa [nthTable_cons_zero] using ht, ?_⟩
        intro j hj
        omega
      · simp only [ht, if_false] at h
        cases hr : findAvailIdx n rest with
        | none => rw [hr] at h; simp at h
        | some k =>
            rw [hr] at h
            simp only [Option.map_some', Option.some.injEq] at h
            subst h
            obtain ⟨hk1, hk2, hk3⟩ := ih k hr
            refine ⟨by simpa using hk1, by simpa [nthTable_cons_succ] using hk2, ?_⟩
            intro j hj
            cases j with
            | zero => simpa [nthTable_cons_zero] using ht
            | succ j' =>
                rw [nthTable_cons_succ]
                exact hk3 j' (by omega)

lemma findAvailIdx_none_iff (n : Nat) :
    ∀ (l : List TableState), findAvailIdx n l = none ↔
      ∀ j < l.length, ¬ availFor n (nthTable l j) := by
  intro l
  induction l with
  | nil => simp [findAvailIdx]
  | cons t rest ih =>
      unfold findAvailIdx
      by_cases ht : availFor n t
      · simp only [ht, if_true]
        constructor
        · intro h; exact Option.noConfusion h
        · intro hall
          exact absurd (by simpa [nthTable_cons_zero] using ht)
            (hall 0 (by simp))
      · simp only [ht, if_false, Option.map_eq_none']
        rw [ih]
        constructor
        · intro hrest j hj
          cases j with
          | zero => simpa [nthTable_cons_zero] using ht
          | succ j' =>
              rw [nthTable_cons_succ]
              exact hrest j' (by simpa using hj)
        · intro hall j hj
          have := hall (j + 1) (by simpa using hj)
          rwa [nthTable_cons_succ] at this

/-! ## FIFO structure of the admission loop -/

lemma admitAux_fifo (l : List Party) :
    ∀ (s : RState), s.waitingQueue = l →
      ∃ k, k ≤ l.length ∧
        (admitAux l s).1.waitingQueue = l.drop k ∧
        ((admitAux l s).2 = none → k < l.length →
          findAvailableTable (admitAux l s).1
            (l.getD k (Party.create [])).size = none) := by
  induction l with
  | nil =>
      intro s hq
      refine ⟨0, by simp, by simpa [admitAux] using hq, ?_⟩
      intro _ hk
      simp at hk
  | cons p rest ih =>
      intro s hq
      unfold admitAux
      by_cases hf : (findAvailableTable s p.size).isSome
      · simp only [hf, if_true]
        have hrq : (seatParty { s with waitingQueue := rest } p).1.waitingQueue = rest :=
          (seatParty_frame { s with waitingQueue := rest } p).2
        cases hr2 : (seatParty { s with waitingQueue := rest } p).2.1 with
        | some e =>
            simp only [hr2]
            refine ⟨1, by simp, by simpa using hrq, ?_⟩
            intro habs
            exact absurd habs (by simp)
        | none =>
            simp only [hr2]
            obtain ⟨k, hk1, hk2, hk3⟩ := ih _ hrq
            refine ⟨k + 1, by simpa using hk1, ?_, ?_⟩
            · simpa [List.drop_succ_cons] using hk2
            · intro herr hklt
              have hkr : k < rest.length := by simpa using hklt
              have := hk3 herr hkr
              simpa [List.getD_cons_succ] using this
      · simp only [hf, if_false]
        refine ⟨0, by simp, by simpa using hq, ?_⟩
        intro _ _
        simpa [List.getD_cons_zero] using Option.not_isSome_iff_eq_none.mp hf

/-! ## Effects of a single eviction check -/

lemma evictCheck_of_pos (s : RState) (i : Nat) (h : evictCond s i) :
    evictCheck s i = emptyTable s i := by
  unfold evictCheck
  simp [h]

lemma evictCheck_of_neg (s : RState) (i : Nat) (h : ¬ evictCond s i) :
    evictCheck s i = s := by
  unfold evictCheck
  simp [h]

lemma evictCond_patrons_lt_length (s : RState) (i : Nat) (h : evictCond s i) :
    i < s.tables.length := by
  by_contra hge
  push_neg at hge
  have := h.1
  rw [nthTable_of_len_le _ _ hge] at this
  simp [defaultTable] at this

lemma evictCheck_tables_ne (s : RState) (h j : Nat) (hne : j ≠ h) :
    nthTable (evictCheck s h).tables j = nthTable s.tables j := by
  unfold evictCheck
  split
  · unfold emptyTable
    dsimp only
    exact nthTable_set_ne _ _ _ _ (fun hh => hne hh.symm)
  · rfl

lemma evictCheck_sittingAt_none (s : RState) (h p : Nat)
    (hp : (s.persons p).sittingAt = none) :
    ((evictCheck s h).persons p).sittingAt = none := by
  unfold evictCheck
  split
  · unfold emptyTable
    dsimp only
    rw [leaveAll_apply]
    split
    · rfl
    · exact hp
  · exact hp

lemma evictCheck_sittingAt_other (s : RState) (h p i : Nat)
    (hp : (s.persons p).sittingAt = some i) (hne : i ≠ h) :
    ((evictCheck s h).persons p).sittingAt = some i := by
  unfold evictCheck
  split
  · unfold emptyTable
    dsimp only
    rw [leaveAll_apply]
    rw [if_neg]
    · exact hp
    · intro hc
      rw [hp] at hc
      exact hne (Option.some.inj hc.2)
  · exact hp

lemma evictCond_congr (s s' : RState) (i : Nat)
    (ht : nthTable s'.tables i = nthTable s.tables i)
    (hadt : ∀ q, (s'.persons q).actualDiningTime = (s.persons q).actualDiningTime)
    (htime : s'.currentTime = s.currentTime) :
    evictCond s' i ↔ evictCond s i := by
  unfold evictCond
  rw [ht, htime, maxDiningTime_congr s'.persons s.persons _ hadt]

/-! ## Characterisation of the whole eviction pass -/

lemma evictFold_char (l : List Nat) :
    ∀ (s : RState), l.Nodup →
      (∀ j, j ∉ l →
        nthTable (l.foldl evictCheck s).tables j = nthTable s.tables j) ∧
      (∀ p, (s.persons p).sittingAt = none →
        ((l.foldl evictCheck s).persons p).sittingAt = none) ∧
      (∀ p i, (s.persons p).sittingAt = some i → i ∉ l →
        ((l.foldl evictCheck s).persons p).sittingAt = some i) ∧
      (∀ i ∈ l,
        (evictCond s i →
          (nthTable (l.foldl evictCheck s).tables i).patrons = [] ∧
          ∀ p ∈ (nthTable s.tables i).patrons,
            (s.persons p).sittingAt = some i →
            ((l.foldl evictCheck s).persons p).sittingAt = none) ∧
        (¬ evictCond s i →
          nthTable (l.foldl evictCheck s).tables i = nthTable s.tables i)) := by
  induction l with
  | nil =>
      intro s _
      exact ⟨fun j _ => rfl, fun p h => h, fun p i h _ => h, by simp⟩
  | cons h rest ih =>
      intro s hnd
      obtain ⟨hh, hndr⟩ := List.nodup_cons.mp hnd
      simp only [List.foldl_cons]
      obtain ⟨ih1, ih2, ih3, ih4⟩ := ih (evictCheck s h) hndr
      have hframe := (evictCheck_frame s h).1
      refine ⟨?_, ?_, ?_, ?_⟩
      · intro j hj
        have hj1 : j ≠ h := fun hc => hj (hc ▸ List.mem_cons_self h rest)
        have hj2 : j ∉ rest := fun hc => hj (List.mem_cons_of_mem h hc)
        rw [ih1 j hj2, evictCheck_tables_ne s h j hj1]
      · intro p hp
        exact ih2 p (evictCheck_sittingAt_none s h p hp)
      · intro p i hp hi
        have hi1 : i ≠ h := fun hc => hi (hc ▸ List.mem_cons_self h rest)
        have hi2 : i ∉ rest := fun hc => hi (List.mem_cons_of_mem h hc)
        exact ih3 p i (evictCheck_sittingAt_other s h p i hp hi1) hi2
      · intro i hi
        rcases List.mem_cons.mp hi with rfl | hir
        · -- the index processed first
          constructor
          · intro hcond
            have hlen := evictCond_patrons_lt_length s i hcond
            have hstep : evictCheck s i = emptyTable s i := evictCheck_of_pos s i hcond
            constructor
            · have hx := ih1 i hh
              rw [hx, hstep]
              unfold emptyTable
              dsimp only
              rw [nthTable_set_self _ _ _ hlen]
            · intro p hp hsit
              apply ih2
              rw [hstep]
              unfold emptyTable
              dsimp only
              rw [leaveAll_apply]
              rw [if_pos ⟨hp, hsit⟩]
          · intro hcond
            have hstep : evictCheck s i = s := evictCheck_of_neg s i hcond
            rw [hstep] at ih1 ⊢
            exact ih1 i hh
        · -- an index processed later
          have hih : i ≠ h := fun hc => hh (hc ▸ hir)
          have ht : nthTable (evictCheck s h).tables i = nthTable s.tables i :=
            evictCheck_tables_ne s h i hih
          have hcond_iff : evictCond (evictCheck s h) i ↔ evictCond s i :=
            evictCond_congr s (evictCheck s h) i ht hframe.2.2 hframe.1
          constructor
          · intro hcond
            obtain ⟨ha, hb⟩ := (ih4 i hir).1 (hcond_iff.mpr hcond)
            refine ⟨ha, ?_⟩
            intro p hp hsit
            apply hb
            · rw [ht]; exact hp
            · exact evictCheck_sittingAt_other s h p i hsit hih
          · intro hcond
            have := (ih4 i hir).2 (fun hc => hcond (hcond_iff.mp hc))
            rw [this, ht]

/-! ## Behaviour of the fuelled run loop -/

lemma runSimAux_done (duration timeStep : ℚ) (fuel : Nat) (s : RState)
    (h : ¬ s.currentTime < duration) :
    runSimAux duration timeStep fuel s = (s, 0, RunOutcome.finished) := by
  cases fuel <;> simp [runSimAux, h]

lemma runSimAux_halts (duration timeStep : ℚ) :
    ∀ (n : Nat) (s : RState), duration - s.currentTime ≤ (n : ℚ) * timeStep →
      (runSimAux duration timeStep n s).2.2 ≠ RunOutcome.outOfFuel := by
  intro n
  induction n with
  | zero =>
      intro s hle
      have hnlt : ¬ s.currentTime < duration := by
        push_cast at hle
        intro hc
        nlinarith
      rw [runSimAux_done duration timeStep 0 s hnlt]
      simp
  | succ m ih =>
      intro s hle
      by_cases hlt : s.currentTime < duration
      · unfold runSimAux
        simp only [hlt, if_true]
        cases hr : (simulateStep s timeStep).2 with
        | some e => simp
        | none =>
            simp only [hr]
            apply ih
            have hct := (simulateStep_frame s timeStep).1
            rw [hct]
            push_cast at hle ⊢
            nlinarith
      · rw [runSimAux_done duration timeStep (m + 1) s hlt]
        simp

lemma runSimAux_never_finishes (duration timeStep : ℚ) (hts : timeStep ≤ 0) :
    ∀ (n : Nat) (s : RState), s.currentTime < duration →
      (runSimAux duration timeStep n s).2.2 ≠ RunOutcome.finished := by
  intro n
  induction n with
  | zero =>
      intro s hlt
      simp [runSimAux, hlt]
  | succ m ih =>
      intro s hlt
      unfold runSimAux
      simp only [hlt, if_true]
      cases hr : (simulateStep s timeStep).2 with
      | some e => simp
      | none =>
          simp only [hr]
          apply ih
          have hct := (simulateStep_frame s timeStep).1
          rw [hct]
          linarith

lemma exists_fuel_bound (duration timeStep : ℚ) (hts : 0 < timeStep)
    (s : RState) : ∃ n : Nat, duration - s.currentTime ≤ (n : ℚ) * timeStep := by
  obtain ⟨n, hn⟩ := exists_nat_ge ((duration - s.currentTime) / timeStep)
  refine ⟨n, ?_⟩
  rw [div_le_iff₀ hts] at hn
  exact hn

/-! ## Helpers for establishing invariants on concrete states -/

lemma patrons_nil_all (s : RState) (h : ∀ t ∈ s.tables, t.patrons = []) :
    ∀ i, (nthTable s.tables i).patrons = [] := by
  intro i
  by_cases hlen : i < s.tables.length
  · exact h _ (nthTable_mem _ _ hlen)
  · rw [nthTable_of_len_le _ _ (le_of_not_lt hlen)]
    rfl

lemma seatInv_unseated (s : RState)
    (h1 : ∀ p, (s.persons p).sittingAt = none)
    (h2 : ∀ t ∈ s.tables, t.patrons = []) : SeatInv s := by
  intro pid tidx
  rw [h1 pid, patrons_nil_all s h2 tidx]
  simp

lemma capInv_of_forall (s : RState)
    (h : ∀ t ∈ s.tables, (t.patrons.length : ℤ) ≤ t.capacity) : CapInv s := by
  intro i
  by_cases hlen : i < s.tables.length
  · exact h _ (nthTable_mem _ _ hlen)
  · rw [nthTable_of_len_le _ _ (le_of_not_lt hlen)]
    simp [defaultTable]

lemma seatInv_sW3 : SeatInv sW3 := by
  intro pid tidx
  cases tidx with
  | zero =>
      show (psW3 pid).sittingAt = some 0 ↔ pid ∈ [1, 2]
      by_cases h1 : pid = 1
      · subst h1
        simp [psW3]
      · by_cases h2 : pid = 2
        · subst h2
          simp [psW3]
        · simp [psW3, h1, h2]
  | succ n =>
      show (psW3 pid).sittingAt = some (n + 1) ↔
        pid ∈ (nthTable sW3.tables (n + 1)).patrons
      have ht : nthTable sW3.tables (n + 1) = defaultTable := by
        show nthTable [TableState.create 1 2 [1, 2]] (n + 1) = defaultTable
        rw [nthTable_cons_succ]
        exact nthTable_nil n
      rw [ht]
      constructor
      · intro hh
        by_cases h1 : pid = 1
        · subst h1
          simp [psW3] at hh
        · by_cases h2 : pid = 2
          · subst h2
            simp [psW3] at hh
          · simp [psW3, h1, h2] at hh
      · intro hmem
        simp [defaultTable] at hmem

/-! ## Claim theorems -/

/-- Claim C1: starting from a state satisfying the bidirectional seating
invariant, after every engine operation (`seatParty`, `simulateStep`,
`runSimulation`, `addToWaitingQueue`) every person's seated-at reference
points to a table exactly when that table's occupant list contains them;
states reached when an exception propagates satisfy it as well. -/
theorem seating_invariant_preserved (s : RState) (hInv : SeatInv s) :
    (∀ party, SeatInv (seatParty s party).1) ∧
    (∀ timeStep, SeatInv (simulateStep s timeStep).1) ∧
    (∀ duration timeStep fuel,
      SeatInv (runSimAux duration timeStep fuel s).1) ∧
    (∀ party, SeatInv (addToWaitingQueue s party)) :=
  ⟨fun party => seatParty_seatInv s party hInv,
   fun timeStep => simulateStep_seatInv s timeStep hInv,
   fun duration timeStep fuel => runSimAux_seatInv duration timeStep fuel s hInv,
   fun party => addToWaitingQueue_seatInv s party hInv⟩

theorem seating_invariant_preserved_witness :
    SeatInv sW1 ∧ SeatInv (simulateStep sW1 5).1 := by
  have h1 : SeatInv sW1 :=
    seatInv_unseated sW1 (fun p => rfl) (by decide)
  exact ⟨h1, (seating_invariant_preserved sW1 h1).2.1 5⟩

/-- Claim C2: the admission phase dequeues parties strictly in FIFO order:
some prefix of `k` parties is seated head-first, the final queue is exactly
the original queue with its first `k` entries removed (so no later party
ever moves ahead of an earlier one), and when the loop stops normally with
parties still queued, the new head party has no available table in the
resulting state — head-of-line blocking. -/
theorem admission_fifo_head_of_line (s : RState) :
    ∃ k, k ≤ s.waitingQueue.length ∧
      (admitPhase s).1.waitingQueue = s.waitingQueue.drop k ∧
      ((admitPhase s).2 = none → k < s.waitingQueue.length →
        findAvailableTable (admitPhase s).1
          (s.waitingQueue.getD k (Party.create [])).size = none) :=
  admitAux_fifo s.waitingQueue s rfl

theorem admission_fifo_head_of_line_witness :
    (∃ k, k ≤ sW2.waitingQueue.length ∧
      (admitPhase sW2).1.waitingQueue = sW2.waitingQueue.drop k ∧
      ((admitPhase sW2).2 = none → k < sW2.waitingQueue.length →
        findAvailableTable (admitPhase sW2).1
          (sW2.waitingQueue.getD k (Party.create [])).size = none)) ∧
    (admitPhase sW2).1.waitingQueue =
      [Party.create [1, 2, 3, 4], Party.create [5, 6]] ∧
    findAvailableTable sW2 (Party.create [5, 6]).size = some 0 :=
  ⟨admission_fifo_head_of_line sW2, by decide, by decide⟩

/-- Claim C4: `findAvailableTable` returns the first table in list order
that is completely empty and has capacity at least the party size; when it
returns a table no earlier table qualifies (first-fit, not best-fit, and a
partially occupied table never qualifies); it returns `none` exactly when no
table qualifies. -/
theorem findAvailableTable_first_fit (s : RState) (n : Nat) :
    (∀ tidx, findAvailableTable s n = some tidx →
      tidx < s.tables.length ∧
      (nthTable s.tables tidx).patrons = [] ∧
      (n : ℤ) ≤ (nthTable s.tables tidx).capacity ∧
      ∀ j < tidx, ¬ ((nthTable s.tables j).patrons = [] ∧
        (n : ℤ) ≤ (nthTable s.tables j).capacity)) ∧
    (findAvailableTable s n = none ↔
      ∀ j < s.tables.length, ¬ ((nthTable s.tables j).patrons = [] ∧
        (n : ℤ) ≤ (nthTable s.tables j).capacity)) := by
  constructor
  · intro tidx h
    obtain ⟨h1, h2, h3⟩ := findAvailIdx_some_spec n s.tables tidx h
    exact ⟨h1, h2.1, h2.2, h3⟩
  · exact findAvailIdx_none_iff n s.tables

theorem findAvailableTable_first_fit_witness :
    findAvailableTable sW4 2 = some 1 ∧
    (1 < sW4.tables.length ∧
      (nthTable sW4.tables 1).patrons = [] ∧
      ((2 : Nat) : ℤ) ≤ (nthTable sW4.tables 1).capacity ∧
      ∀ j < 1, ¬ ((nthTable sW4.tables j).patrons = [] ∧
        ((2 : Nat) : ℤ) ≤ (nthTable sW4.tables j).capacity)) :=
  ⟨by decide, (findAvailableTable_first_fit sW4 2).1 1 (by decide)⟩

/-- Claim C9: the capacity bound `patrons.length <= capacity` holds for a
freshly constructed restaurant whose tables start empty with non-negative
capacities, and is preserved by every engine operation: `addPatron`,
`sitDown`, `seatParty`, eviction (`emptyTable`), every `simulateStep`, and
`runSimulation`. -/
theorem capacity_bound_preserved (s : RState) (hc : CapInv s) :
    (∀ (t : TableState) (pid : Nat), (t.patrons.length : ℤ) ≤ t.capacity →
      (((t.addPatron pid).1.patrons.length : ℤ) ≤ (t.addPatron pid).1.capacity)) ∧
    (∀ pid tidx, CapInv (sitDown s pid tidx).1) ∧
    (∀ party, CapInv (seatParty s party).1) ∧
    (∀ tidx, CapInv (emptyTable s tidx)) ∧
    (∀ timeStep, CapInv (simulateStep s timeStep).1) ∧
    (∀ duration timeStep fuel, CapInv (runSimAux duration timeStep fuel s).1) ∧
    (∀ tables persons, (∀ t ∈ tables, t.patrons = [] ∧ 0 ≤ t.capacity) →
      CapInv (RState.create tables persons)) :=
  ⟨addPatron_capacity,
   fun pid tidx => sitDown_capInv s pid tidx hc,
   fun party => seatParty_capInv s party hc,
   fun tidx => emptyTable_capInv s tidx hc,
   fun timeStep => simulateStep_capInv s timeStep hc,
   fun duration timeStep fuel => runSimAux_capInv duration timeStep fuel s hc,
   create_capInv⟩

theorem capacity_bound_preserved_witness :
    CapInv sW9 ∧ CapInv (simulateStep sW9 5).1 := by
  have hc : CapInv sW9 := capInv_of_forall sW9 (by decide)
  exact ⟨hc, (capacity_bound_preserved sW9 hc).2.2.2.2.1 5⟩

/-- Claim C10: every successful step advances the clock by exactly the time
step; for a positive time step the run loop halts after finitely many steps
(enough fuel makes the fuelled loop reach `duration` or an exception), while
for a non-positive time step with `currentTime < duration` the loop never
exits normally, however much fuel it is given. -/
theorem runSimulation_fuel_termination (duration timeStep : ℚ) (s : RState) :
    (∀ s', (simulateStep s' timeStep).1.currentTime = s'.currentTime + timeStep) ∧
    (0 < timeStep → ∃ fuel,
      (runSimAux duration timeStep fuel s).2.2 ≠ RunOutcome.outOfFuel) ∧
    (timeStep ≤ 0 → s.currentTime < duration →
      ∀ fuel, (runSimAux duration timeStep fuel s).2.2 ≠ RunOutcome.finished) := by
  refine ⟨fun s' => (simulateStep_frame s' timeStep).1, ?_, ?_⟩
  · intro hts
    obtain ⟨n, hn⟩ := exists_fuel_bound duration timeStep hts s
    exact ⟨n, runSimAux_halts duration timeStep n s hn⟩
  · intro hts hlt fuel
    exact runSimAux_never_finishes duration timeStep hts fuel s hlt

theorem runSimulation_fuel_termination_witness :
    (0 : ℚ) < 5 ∧ (-5 : ℚ) ≤ 0 ∧ sW10.currentTime < 10 ∧
    (∃ fuel, (runSimAux 10 5 fuel sW10).2.2 ≠ RunOutcome.outOfFuel) ∧
    (∀ fuel, (runSimAux 10 (-5) fuel sW10).2.2 ≠ RunOutcome.finished) := by
  refine ⟨by norm_num, by norm_num, by decide, ?_, ?_⟩
  · exact (runSimulation_fuel_termination 10 5 sW10).2.1 (by norm_num)
  · exact (runSimulation_fuel_termination 10 (-5) sW10).2.2 (by norm_num) (by decide)

/-- Claim C5 (code bug): `Person.leaveTable` on a table the person is not
seated at — whether they are seated elsewhere (person 7, seated at table 0,
asked to leave table 1) or not seated at all (person 9) — is a silent no-op:
the state is returned completely unchanged and the operation has no error
channel at all, contradicting the spec's demand for a loud failure. -/
theorem leaveTable_mismatch_silent_noop :
    leaveTable sC5 7 1 = sC5 ∧
    (sC5.persons 7).sittingAt = some 0 ∧
    leaveTable sC5 9 0 = sC5 ∧
    (sC5.persons 9).sittingAt = none :=
  ⟨rfl, rfl, rfl, rfl⟩

/-- Claim C6 (code bug): `runSimulation(0, timeStep)` on a fresh restaurant
(current time 0) executes zero steps for every time step and every amount of
fuel — the `while (currentTime < duration)` loop body never runs, the state
is returned unchanged, and the step counter stays 0, contradicting the
spec's demand that at least one step execute. -/
theorem runSimulation_zero_duration_executes_no_step :
    ∀ (timeStep : ℚ) (fuel : Nat),
      runSimAux 0 timeStep fuel sC6 = (sC6, 0, RunOutcome.finished) := by
  intro timeStep fuel
  apply runSimAux_done
  show ¬ (0 : ℚ) < 0
  norm_num

/-- Claim C7 (code bug): `simulateStep` performs no validation of the time
step: with `timeStep = -5` it simply adds it (the clock goes to -5) and
reports no error, while the positive half of the claim (the clock advances
by exactly the step) does hold; no `InvalidTimeStepError` exists anywhere in
the source. -/
theorem simulateStep_nonpositive_step_not_rejected :
    (simulateStep sC7 (-5)).2 = none ∧
    (simulateStep sC7 (-5)).1.currentTime = -5 ∧
    (simulateStep sC7 (-5)).1.tables = sC7.tables ∧
    (simulateStep sC7 (-5)).1.waitingQueue = [] ∧
    (simulateStep sC7 5).1.currentTime = 5 := by
  have hc : sC7.currentTime = 0 := rfl
  refine ⟨by decide, ?_, by decide, by decide, ?_⟩
  · rw [(simulateStep_frame sC7 (-5)).1, hc]
    norm_num
  · rw [(simulateStep_frame sC7 5).1, hc]
    norm_num

/-- Claim C8 (code bug): the `Table`, `Party` and `DiningTime` constructors
perform no validation: a table with capacity 0, an empty party, and a dining
time with inverted bounds are all constructed successfully — the claimed
`InvalidCapacityError`, `EmptyPartyError` and `InvalidRangeError` do not
exist in the source. -/
theorem constructors_perform_no_validation :
    TableState.create 1 0 [] = { id := 1, capacity := 0, patrons := [] } ∧
    Party.create [] = { members := [] } ∧
    (Party.create []).size = 0 ∧
    DiningTime.create 5 3 = { lowerBound := 5, upperBound := 3 } ∧
    (DiningTime.create 5 3).upperBound < (DiningTime.create 5 3).lowerBound :=
  ⟨rfl, rfl, rfl, rfl, by decide⟩

/-- Claim C3: a step first advances the clock and then runs the eviction
pass; in that pass, every table that has occupants is emptied — all
occupants leave together and their seated-at references are cleared — if
and only if the advanced clock has reached the maximum `actualDiningTime`
among its occupants (each occupant's time is at most that maximum); if the
maximum has not been reached the table is completely untouched, so nobody
leaves individually early. -/
theorem group_departure_eviction (s : RState) (timeStep : ℚ) (hInv : SeatInv s) :
    simulateStep s timeStep =
      admitPhase (evictPhase { s with currentTime := s.currentTime + timeStep }) ∧
    ∀ i, (nthTable s.tables i).patrons ≠ [] →
      ((nthTable (evictPhase { s with currentTime := s.currentTime + timeStep }).tables
          i).patrons = [] ↔
        maxDiningTime s.persons (nthTable s.tables i).patrons ≤
          s.currentTime + timeStep) ∧
      (¬ maxDiningTime s.persons (nthTable s.tables i).patrons ≤
          s.currentTime + timeStep →
        nthTable (evictPhase { s with currentTime := s.currentTime + timeStep }).tables i
          = nthTable s.tables i) ∧
      (maxDiningTime s.persons (nthTable s.tables i).patrons ≤
          s.currentTime + timeStep →
        ∀ p ∈ (nthTable s.tables i).patrons,
          ((evictPhase { s with currentTime := s.currentTime + timeStep }).persons
            p).sittingAt = none) ∧
      (∀ p ∈ (nthTable s.tables i).patrons,
        (s.persons p).actualDiningTime ≤
          maxDiningTime s.persons (nthTable s.tables i).patrons) := by
  refine ⟨rfl, ?_⟩
  intro i hne
  have hlen : i < s.tables.length := by
    by_contra hge
    push_neg at hge
    rw [nthTable_of_len_le _ _ hge] at hne
    exact hne rfl
  obtain ⟨ch1, ch2, ch3, ch4⟩ :=
    evictFold_char
      (List.range ({ s with currentTime := s.currentTime + timeStep } : RState).tables.length)
      { s with currentTime := s.currentTime + timeStep }
      (List.nodup_range _)
  have hmem : i ∈ List.range
      ({ s with currentTime := s.currentTime + timeStep } : RState).tables.length := by
    rw [List.mem_range]
    exact hlen
  have hch := ch4 i hmem
  have hcond_iff :
      evictCond { s with currentTime := s.currentTime + timeStep } i ↔
        maxDiningTime s.persons (nthTable s.tables i).patrons ≤
          s.currentTime + timeStep := by
    unfold evictCond
    simp [hne]
  refine ⟨?_, ?_, ?_, maxDiningTime_is_ub s.persons _⟩
  · constructor
    · intro hempty
      by_contra hnot
      have hnc : ¬ evictCond { s with currentTime := s.currentTime + timeStep } i :=
        fun hc => hnot (hcond_iff.mp hc)
      have := hch.2 hnc
      rw [show (evictPhase { s with currentTime := s.currentTime + timeStep }) =
        (List.range ({ s with currentTime := s.currentTime + timeStep } : RState).tables.length).foldl
          evictCheck { s with currentTime := s.currentTime + timeStep } from rfl] at hempty
      rw [this] at hempty
      exact hne hempty
    · intro hmax
      exact (hch.1 (hcond_iff.mpr hmax)).1
  · intro hmax
    have hnc : ¬ evictCond { s with currentTime := s.currentTime + timeStep } i :=
      fun hc => hmax (hcond_iff.mp hc)
    exact hch.2 hnc
  · intro hmax p hp
    exact (hch.1 (hcond_iff.mpr hmax)).2 p hp ((hInv p i).mpr hp)

theorem group_departure_eviction_witness :
    SeatInv sW3 ∧
    maxDiningTime sW3.persons (nthTable sW3.tables 0).patrons = 50 ∧
    nthTable (evictPhase { sW3 with currentTime := sW3.currentTime + 40 }).tables 0
      = nthTable sW3.tables 0 ∧
    (nthTable (evictPhase { sW3 with currentTime := sW3.currentTime + 50 }).tables
      0).patrons = [] ∧
    ((evictPhase { sW3 with currentTime := sW3.currentTime + 50 }).persons
      1).sittingAt = none ∧
    ((evictPhase { sW3 with currentTime := sW3.currentTime + 50 }).persons
      2).sittingAt = none := by
  have hInv := seatInv_sW3
  have hne : (nthTable sW3.tables 0).patrons ≠ [] := by decide
  have h40 := (group_departure_eviction sW3 40 hInv).2 0 hne
  have h50 := (group_departure_eviction sW3 50 hInv).2 0 hne
  have hmax : maxDiningTime sW3.persons (nthTable sW3.tables 0).patrons = 50 := by
    decide
  refine ⟨hInv, hmax, ?_, ?_, ?_, ?_⟩
  · refine h40.2.1 ?_
    rw [hmax]
    have : sW3.currentTime = 0 := rfl
    rw [this]
    norm_num
  · refine h50.1.mpr ?_
    rw [hmax]
    have : sW3.currentTime = 0 := rfl
    rw [this]
    norm_num
  · refine h50.2.2.1 ?_ 1 (by decide)
    rw [hmax]
    have : sW3.currentTime = 0 := rfl
    rw [this]
    norm_num
  · refine h50.2.2.1 ?_ 2 (by decide)
    rw [hmax]
    have : sW3.currentTime = 0 := rfl
    rw [this]
    norm_num
